import Mathlib

/-!
Verification of the MongoCsvSeeder repository (`src/main.go`): a resumable
streaming CSV → document-store batch-ingestion pipeline.  The Go program is
shallowly embedded: pure helpers (`parseArrayFromColumn`, `parseFloat`,
the checkpoint-path derivation) become Lean functions over `String` /
`List Char`; the stateful `processCSV` loop becomes a fold with an explicit
state record; the external collaborators (the Mongo `InsertMany` call, the
checkpoint-file write, and the standard library's `strconv.ParseFloat`)
become oracles passed as parameters.
-/

/-- Set of whitespace-ish characters: models Go's `unicode.IsSpace` on the
ASCII range, as used by `strings.TrimSpace`. -/
def goIsSpace (c : Char) : Bool :=
  c == ' ' || c == Char.ofNat 9 || c == Char.ofNat 10 ||
  c == Char.ofNat 11 || c == Char.ofNat 12 || c == Char.ofNat 13

/-- Drop the trailing run of characters satisfying `p` (helper for Go's
`strings.Trim`). -/
def dropWhileRight (p : Char → Bool) (l : List Char) : List Char :=
  (l.reverse.dropWhile p).reverse

/-- Models Go's `strings.Trim`-style two-sided trimming with an arbitrary
character predicate. -/
def goTrimWith (p : Char → Bool) (s : String) : String :=
  String.mk (dropWhileRight p (s.data.dropWhile p))

/-- Models Go's `strings.Trim s cutset`: remove the leading and trailing
runs of characters belonging to `cutset`. -/
def goTrim (cutset : List Char) (s : String) : String :=
  goTrimWith (fun c => cutset.contains c) s

/-- Models Go's `strings.TrimSpace`. -/
def goTrimSpace (s : String) : String :=
  goTrimWith goIsSpace s

/-- Splits a character list at every occurrence of `sep`; the result always
has at least one (possibly empty) piece, so the empty list maps to `[[]]`.
This models Go's `strings.Split` with a one-character separator, which on
the empty string returns a one-element slice holding the empty string. -/
def splitOnChar (sep : Char) : List Char → List (List Char)
  | [] => [[]]
  | c :: rest =>
    if c == sep then [] :: splitOnChar sep rest
    else
      match splitOnChar sep rest with
      | [] => [[c]]
      | x :: xs => (c :: x) :: xs

/-- Models Go's `strings.Split s sep` for a single-character separator. -/
def goSplit (s : String) (sep : Char) : List String :=
  (splitOnChar sep s.data).map String.mk

/-- Embedding of `parseArrayFromColumn` (src/main.go, lines 49-62): remove
the square brackets with `strings.Trim(csv, "[]")`, split the result on
commas, and for each element apply `strings.Trim(item, "'")` followed by
`strings.TrimSpace`, in that order, exactly as in the source. -/
def parseArrayFromColumn (csv : String) : List String :=
  let cleaned := goTrim ['[', ']'] csv
  let items := goSplit cleaned ','
  items.map (fun item => goTrimSpace (goTrim [Char.ofNat 39] item))

/-- Embedding of `parseFloat` (src/main.go, lines 198-204).  The standard
library primitive `strconv.ParseFloat` is external to the repository, so it
is abstracted as an oracle `pf : String → Option Rat`: `some v` models a
successful parse with value `v`, `none` models `err != nil`.  As in the
source, any parse error yields the value `0.0`. -/
def parseFloat (pf : String → Option Rat) (val : String) : Rat :=
  match pf val with
  | none => 0
  | some v => v

/-- Embedding of the `Location` struct (src/main.go, lines 21-24); the
`[2]float64` coordinates array becomes an ordered pair. -/
structure Location where
  type : String
  coordinates : Rat × Rat
  deriving DecidableEq, Inhabited

/-- Embedding of the `Place` struct (src/main.go, lines 26-44).  The
`[]any` fields hold no payload in this program and are modelled as
`List Unit`; the `*time.Time` field is modelled as an `Option` of an opaque
timestamp. -/
structure Place where
  placeId : String
  address : String
  version : String
  isAutoCompleteAddress : Bool
  types : List String
  plusCode : String
  city : String
  division : String
  district : String
  postalCode : String
  sublocality : String
  localArea : String
  location : Location
  suggestions : List Unit
  reviews : List Unit
  mergedAt : Option Nat
  isMerged : Bool
  deriving DecidableEq, Inhabited

/-- Base name of the checkpoint file (src/main.go, line 47). -/
def progressFile : String := "_progress.txt"

/-- Checkpoint-file path derivation performed in `main` (src/main.go,
line 250): `progressFile = strings.Split(csvFile, ".")[0] + progressFile`,
i.e. the portion of the input file name before the first dot, concatenated
with the fixed suffix. -/
def progressPath (csvFile : String) : String :=
  String.mk (csvFile.data.takeWhile (fun c => c != '.')) ++ progressFile

/-- Column access `record[i]` on a raw CSV record: `some` the value when
the index is in range, `none` when the access would panic with an
index-out-of-range error in Go. -/
def colAt : List String → Nat → Option String
  | [], _ => none
  | a :: _, 0 => some a
  | _ :: t, n + 1 => colAt t n

/-- Entity construction performed per record inside `processCSV`
(src/main.go, lines 142-164): each field is read from its fixed column
index.  A record too short for one of the reads yields `none`, modelling
the Go index-out-of-range panic. -/
def toPlace (pf : String → Option Rat) (record : List String) : Option Place := do
  let c0 ← colAt record 0
  let c1 ← colAt record 1
  let c2 ← colAt record 2
  let c3 ← colAt record 3
  let c5 ← colAt record 5
  let c6 ← colAt record 6
  let c7 ← colAt record 7
  let c8 ← colAt record 8
  let c9 ← colAt record 9
  let c10 ← colAt record 10
  let c11 ← colAt record 11
  let c12 ← colAt record 12
  let c13 ← colAt record 13
  let c14 ← colAt record 14
  pure
    { placeId := c0
      address := c2
      version := c12
      isAutoCompleteAddress := c3.toLower == "true"
      types := parseArrayFromColumn c1
      plusCode := c8
      city := c5
      division := c6
      district := c7
      postalCode := c11
      sublocality := c13
      localArea := c14
      location := { type := "Point", coordinates := (parseFloat pf c10, parseFloat pf c9) }
      suggestions := []
      reviews := []
      mergedAt := none
      isMerged := false }

/-- How a run of `processCSV` ends: normal return, an `InsertMany` error
returned to `main` (which calls `log.Fatalf`), or an index-out-of-range
panic while reading a record's columns. -/
inductive Outcome where
  | ok
  | insertError
  | indexPanic
  deriving DecidableEq, Inhabited

/-- Process exit code for each outcome: success prints a message and exits
0; an error returned to `main` reaches `log.Fatalf` (exit 1); a runtime
panic exits 2. -/
def exitCode : Outcome → Nat
  | .ok => 0
  | .insertError => 1
  | .indexPanic => 2

/-- State of the `processCSV` loop: the `startProcessing` resume flag, the
current batch buffer, the list of successfully committed batches (the
`InsertMany` payloads, in call order), the persisted content of the
checkpoint file, the warnings logged so far, and the run outcome. -/
structure St where
  start : Bool
  batch : List Place
  committed : List (List Place)
  persisted : String
  warnings : List String
  outcome : Outcome
  deriving DecidableEq, Inhabited

/-- Embedding of `updateLastProcessedPlaceID` (src/main.go, lines 219-224):
writes the key to the checkpoint file; on a write failure (the `wok`
oracle, indexed by the number of the write) it logs a warning and returns
normally — the function has no error result, matching the Go signature. -/
def updateLastProcessedPlaceID (wok : Nat → Bool) (k : Nat) (placeID : String)
    (persisted : String) (warnings : List String) : String × List String :=
  if wok k then (placeID, warnings)
  else (persisted, warnings ++ ["Error updating progress file"])

/-- One iteration of the `processCSV` read loop (src/main.go, lines
112-181) on a single data record: resume filtering on column 0, entity
mapping, batching with threshold 1000, and on a full batch a bulk insert
(success given by the `ins` oracle, indexed by the number of prior
`InsertMany` calls) followed by a checkpoint write.  A state whose outcome
is no longer `ok` is frozen, modelling the early `return` / panic. -/
def step (pf : String → Option Rat) (ins wok : Nat → Bool) (lastID : String)
    (st : St) (r : List String) : St :=
  if st.outcome ≠ .ok then st
  else
    match colAt r 0 with
    | none => { st with outcome := .indexPanic }
    | some k0 =>
      if !st.start && (k0 == lastID) then { st with start := true }
      else if !st.start then st
      else
        match toPlace pf r with
        | none => { st with outcome := .indexPanic }
        | some p =>
          let b := st.batch ++ [p]
          if 1000 ≤ b.length then
            if ins st.committed.length then
              let u := updateLastProcessedPlaceID wok st.committed.length p.placeId
                st.persisted st.warnings
              { st with batch := [], committed := st.committed ++ [b],
                        persisted := u.1, warnings := u.2 }
            else { st with outcome := .insertError }
          else { st with batch := b }

/-- Final flush after end-of-file (src/main.go, lines 184-191): if the
buffer is non-empty it is inserted as a last, possibly undersized batch,
and on success the checkpoint is written with the batch's last entity's
key. -/
def flushStep (ins wok : Nat → Bool) (st : St) : St :=
  if st.outcome ≠ .ok then st
  else
    match st.batch.getLast? with
    | none => st
    | some p =>
      if ins st.committed.length then
        let u := updateLastProcessedPlaceID wok st.committed.length p.placeId
          st.persisted st.warnings
        { st with committed := st.committed ++ [st.batch],
                  persisted := u.1, warnings := u.2 }
      else { st with outcome := .insertError }

/-- Initial loop state: `startProcessing := lastProcessedID == ""`
(src/main.go, line 98); the persisted checkpoint starts as the value read
at startup. -/
def initSt (cp0 : String) : St :=
  { start := cp0 == "", batch := [], committed := [], persisted := cp0,
    warnings := [], outcome := .ok }

/-- Embedding of `processCSV` (src/main.go, lines 65-195) on the list of
data records (the header row has already been read and discarded, lines
105-110).  `cp0` is the checkpoint value read at startup, used both as the
resume key and as the initial persisted value. -/
def processCSV (pf : String → Option Rat) (ins wok : Nat → Bool)
    (cp0 : String) (records : List (List String)) : St :=
  flushStep ins wok (records.foldl (step pf ins wok cp0) (initSt cp0))

/-- Reference batching function: starting from a partial buffer `b`, append
entities one by one and emit a completed batch each time the buffer reaches
1000, returning the completed batches together with the leftover partial
buffer.  It mirrors the buffer discipline of the `processCSV` loop. -/
def fullChunks : List Place → List Place → List (List Place) × List Place
  | b, [] => ([], b)
  | b, e :: es =>
    if 1000 ≤ (b ++ [e]).length then
      ((b ++ [e]) :: (fullChunks [] es).1, (fullChunks [] es).2)
    else fullChunks (b ++ [e]) es

/-- The completed batches followed by the leftover buffer recover exactly
the input entities, in order. -/
theorem fullChunks_join : ∀ (es b : List Place),
    (fullChunks b es).1.flatten ++ (fullChunks b es).2 = b ++ es := by
  intro es
  induction es with
  | nil => intro b; simp [fullChunks]
  | cons e es ih =>
    intro b
    by_cases h : 1000 ≤ (b ++ [e]).length
    · simp only [fullChunks, if_pos h, List.flatten_cons, List.append_assoc]
      rw [ih []]
      simp
    · simp only [fullChunks, if_neg h]
      rw [ih (b ++ [e])]
      simp

/-- Every completed batch has size exactly 1000, and the leftover buffer
and batch count are given by the total entity count mod / div 1000. -/
theorem fullChunks_sizes : ∀ (es b : List Place), b.length < 1000 →
    (∀ c ∈ (fullChunks b es).1, c.length = 1000) ∧
    (fullChunks b es).2.length = (b.length + es.length) % 1000 ∧
    (fullChunks b es).1.length = (b.length + es.length) / 1000 := by
  intro es
  induction es with
  | nil =>
    intro b hb
    refine ⟨by simp [fullChunks], ?_, ?_⟩ <;> simp [fullChunks] <;> omega
  | cons e es ih =>
    intro b hb
    by_cases h : 1000 ≤ (b ++ [e]).length
    · have hlen : (b ++ [e]).length = b.length + 1 := by simp
      have hb1000 : b.length + 1 = 1000 := by omega
      obtain ⟨ih1, ih2, ih3⟩ := ih [] (by simp)
      refine ⟨?_, ?_, ?_⟩
      · intro c hc
        simp only [fullChunks, if_pos h] at hc
        rcases List.mem_cons.mp hc with hc | hc
        · simp [hc]; omega
        · exact ih1 c hc
      · simp only [fullChunks, if_pos h]
        simp only [List.length_nil] at ih2
        simp only [List.length_cons]
        omega
      · simp only [fullChunks, if_pos h]
        simp only [List.length_nil] at ih3
        simp only [List.length_cons]
        omega
    · have hlen : (b ++ [e]).length = b.length + 1 := by simp
      obtain ⟨ih1, ih2, ih3⟩ := ih (b ++ [e]) (by omega)
      refine ⟨?_, ?_, ?_⟩
      · intro c hc
        simp only [fullChunks, if_neg h] at hc
        exact ih1 c hc
      · simp only [fullChunks, if_neg h]
        rw [ih2, hlen]
        simp only [List.length_cons]
        omega
      · simp only [fullChunks, if_neg h]
        rw [ih3, hlen]
        simp only [List.length_cons]
        omega

/-- All batches of a full run: the completed batches plus, when non-empty,
the leftover buffer flushed as a final undersized batch. -/
def chunksAll (es : List Place) : List (List Place) :=
  (fullChunks [] es).1 ++ (if (fullChunks [] es).2.isEmpty then [] else [(fullChunks [] es).2])

/-- All entities of a run, in order, recoverable from `chunksAll`. -/
theorem chunksAll_flatten (es : List Place) : (chunksAll es).flatten = es := by
  have h := fullChunks_join es []
  unfold chunksAll
  by_cases hrem : (fullChunks [] es).2.isEmpty
  · rw [List.isEmpty_iff] at hrem
    rw [hrem] at h
    simp at h
    simp [hrem, h]
  · rw [List.isEmpty_iff] at hrem
    simp at h
    simp [if_neg, hrem, h]

/-- The number of batches in a full run is the ceiling of the entity count
divided by 1000. -/
theorem chunksAll_length (es : List Place) :
    (chunksAll es).length = (es.length + 999) / 1000 := by
  obtain ⟨-, h2, h3⟩ := fullChunks_sizes es [] (by simp)
  simp only [List.length_nil, Nat.zero_add] at h2 h3
  unfold chunksAll
  by_cases hrem : (fullChunks [] es).2.isEmpty
  · rw [List.isEmpty_iff] at hrem
    rw [hrem] at h2
    simp only [List.length_nil] at h2
    simp [hrem, h3]
    omega
  · rw [List.isEmpty_iff] at hrem
    have hne : (fullChunks [] es).2.length ≠ 0 := by
      intro h0
      exact hrem (List.eq_nil_of_length_eq_zero h0)
    rw [if_neg (by simpa [List.isEmpty_iff] using hrem)]
    simp only [List.length_append, List.length_cons, List.length_nil]
    omega

/-- Batch sizes in a full run: every batch has size 1000, except that when
the entity count is not a multiple of 1000 the final batch has size
`count % 1000`. -/
theorem chunksAll_sizes (es : List Place) :
    ∀ i (h : i < (chunksAll es).length),
      ((chunksAll es).get ⟨i, h⟩).length =
        if i + 1 = (chunksAll es).length ∧ es.length % 1000 ≠ 0
        then es.length % 1000 else 1000 := by
  obtain ⟨h1, h2, h3⟩ := fullChunks_sizes es [] (by simp)
  simp only [List.length_nil, Nat.zero_add] at h2 h3
  intro i h
  by_cases hrem : (fullChunks [] es).2.isEmpty
  · have hrem' : (fullChunks [] es).2 = [] := List.isEmpty_iff.mp hrem
    have hmod : es.length % 1000 = 0 := by
      rw [hrem'] at h2; simpa using h2.symm
    have hca : chunksAll es = (fullChunks [] es).1 := by
      simp [chunksAll, hrem]
    have hmem : (chunksAll es).get ⟨i, h⟩ ∈ (fullChunks [] es).1 := by
      rw [← hca]; exact List.get_mem _ _ _
    rw [h1 _ hmem]
    simp [hmod]
  · have hrem' : (fullChunks [] es).2 ≠ [] := by
      simpa [List.isEmpty_iff] using hrem
    have hmodne : es.length % 1000 ≠ 0 := by
      rw [← h2]
      simpa using hrem'
    have hca : chunksAll es = (fullChunks [] es).1 ++ [(fullChunks [] es).2] := by
      simp [chunksAll, hrem]
    have hlen : (chunksAll es).length = (fullChunks [] es).1.length + 1 := by
      rw [hca]; simp
    by_cases hi : i < (fullChunks [] es).1.length
    · have hget : (chunksAll es).get ⟨i, h⟩ = (fullChunks [] es).1[i] := by
        simp only [List.get_eq_getElem]
        rw [List.getElem_of_eq hca h]
        exact List.getElem_append_left hi
      rw [hget, h1 _ (List.getElem_mem hi)]
      rw [if_neg (by omega)]
    · have hi' : i = (fullChunks [] es).1.length := by omega
      have hget : (chunksAll es).get ⟨i, h⟩ = (fullChunks [] es).2 := by
        simp only [List.get_eq_getElem]
        rw [List.getElem_of_eq hca h]
        rw [List.getElem_append_right (by omega)]
        simp [hi']
      rw [hget, h2]
      rw [if_pos (by omega)]

/-- Column access succeeds exactly when the index is in range. -/
theorem colAt_isSome_iff : ∀ (l : List String) (i : Nat),
    (colAt l i).isSome ↔ i < l.length := by
  intro l
  induction l with
  | nil => intro i; simp [colAt]
  | cons a t ih =>
    intro i
    cases i with
    | zero => simp [colAt]
    | succ n => simp [colAt, ih n]

/-- A record with at least 15 columns always maps to an entity: every
column read by the mapper is in range. -/
theorem toPlace_isSome (pf : String → Option Rat) (r : List String)
    (h : 15 ≤ r.length) : (toPlace pf r).isSome := by
  rcases r with _ | ⟨a0, _ | ⟨a1, _ | ⟨a2, _ | ⟨a3, _ | ⟨a4, _ | ⟨a5, _ | ⟨a6,
    _ | ⟨a7, _ | ⟨a8, _ | ⟨a9, _ | ⟨a10, _ | ⟨a11, _ | ⟨a12, _ | ⟨a13,
    _ | ⟨a14, rest⟩⟩⟩⟩⟩⟩⟩⟩⟩⟩⟩⟩⟩⟩⟩
  all_goals (try rfl)
  all_goals (simp at h)

/-- A record with fewer than 15 columns maps to no entity: one of the
column reads is out of range. -/
theorem toPlace_none_of_short (pf : String → Option Rat) (r : List String)
    (h : r.length < 15) : toPlace pf r = none := by
  rcases r with _ | ⟨a0, _ | ⟨a1, _ | ⟨a2, _ | ⟨a3, _ | ⟨a4, _ | ⟨a5, _ | ⟨a6,
    _ | ⟨a7, _ | ⟨a8, _ | ⟨a9, _ | ⟨a10, _ | ⟨a11, _ | ⟨a12, _ | ⟨a13,
    _ | ⟨a14, rest⟩⟩⟩⟩⟩⟩⟩⟩⟩⟩⟩⟩⟩⟩⟩
  all_goals (try rfl)
  simp only [List.length_cons] at h
  omega

/-- A record that maps to an entity has at least 15 columns (the mapper
reads column index 14). -/
theorem length_of_toPlace (pf : String → Option Rat) (r : List String)
    (p : Place) (h : toPlace pf r = some p) : 15 ≤ r.length := by
  by_contra hlt
  push_neg at hlt
  rw [toPlace_none_of_short pf r hlt] at h
  exact Option.noConfusion h

/-- When every element of a list is accepted by `f`, `filterMap` preserves
the length. -/
theorem length_filterMap_of_isSome {α β : Type} (f : α → Option β) :
    ∀ l : List α, (∀ a ∈ l, (f a).isSome) → (l.filterMap f).length = l.length := by
  intro l
  induction l with
  | nil => intro _; simp
  | cons a t ih =>
    intro hall
    obtain ⟨b, hb⟩ := Option.isSome_iff_exists.mp (hall a (by simp))
    rw [List.filterMap_cons_some hb]
    simp only [List.length_cons]
    rw [ih (fun x hx => hall x (by simp [hx]))]

/-- Behaviour of one loop iteration in processing mode (`startProcessing`
already true) on a record that maps to an entity: append to the batch, and
flush through the insert oracle when the batch reaches 1000. -/
theorem step_good (pf : String → Option Rat) (ins wok : Nat → Bool) (lastID : String)
    (st : St) (r : List String) (p : Place)
    (ho : st.outcome = .ok) (hs : st.start = true) (hp : toPlace pf r = some p) :
    step pf ins wok lastID st r =
      if 1000 ≤ (st.batch ++ [p]).length then
        if ins st.committed.length then
          { st with batch := [],
                    committed := st.committed ++ [st.batch ++ [p]],
                    persisted := (updateLastProcessedPlaceID wok st.committed.length
                      p.placeId st.persisted st.warnings).1,
                    warnings := (updateLastProcessedPlaceID wok st.committed.length
                      p.placeId st.persisted st.warnings).2 }
        else { st with outcome := .insertError }
      else { st with batch := st.batch ++ [p] } := by
  have h0 : (colAt r 0).isSome := by
    rw [colAt_isSome_iff]
    have := length_of_toPlace pf r p hp
    omega
  obtain ⟨k0, hk0⟩ := Option.isSome_iff_exists.mp h0
  simp [step, ho, hs, hk0, hp]

/-- Running the loop in processing mode over well-formed records: the
committed batches and the leftover buffer are described by `fullChunks`,
and the loop stays in processing mode with outcome `ok`. -/
theorem foldl_run (pf : String → Option Rat) (ins wok : Nat → Bool) (lastID : String)
    (hins : ∀ k, ins k = true) :
    ∀ (records : List (List String)) (st : St),
      st.outcome = .ok → st.start = true → st.batch.length < 1000 →
      (∀ r ∈ records, 15 ≤ r.length) →
      (records.foldl (step pf ins wok lastID) st).committed
          = st.committed ++ (fullChunks st.batch (records.filterMap (toPlace pf))).1 ∧
      (records.foldl (step pf ins wok lastID) st).batch
          = (fullChunks st.batch (records.filterMap (toPlace pf))).2 ∧
      (records.foldl (step pf ins wok lastID) st).outcome = .ok ∧
      (records.foldl (step pf ins wok lastID) st).start = true := by
  intro records
  induction records with
  | nil =>
    intro st ho hs hb _
    simp [fullChunks, ho, hs]
  | cons r rest ih =>
    intro st ho hs hb hrows
    obtain ⟨p, hp⟩ := Option.isSome_iff_exists.mp (toPlace_isSome pf r (hrows r (by simp)))
    have hfm : (r :: rest).filterMap (toPlace pf) = p :: rest.filterMap (toPlace pf) :=
      List.filterMap_cons_some hp
    rw [List.foldl_cons, step_good pf ins wok lastID st r p ho hs hp, hfm]
    by_cases hfull : 1000 ≤ (st.batch ++ [p]).length
    · rw [if_pos hfull, if_pos (hins st.committed.length)]
      have hrows' : ∀ x ∈ rest, 15 ≤ x.length := fun x hx => hrows x (by simp [hx])
      obtain ⟨ih1, ih2, ih3, ih4⟩ := ih
        { st with batch := [],
                  committed := st.committed ++ [st.batch ++ [p]],
                  persisted := (updateLastProcessedPlaceID wok st.committed.length
                    p.placeId st.persisted st.warnings).1,
                  warnings := (updateLastProcessedPlaceID wok st.committed.length
                    p.placeId st.persisted st.warnings).2 }
        ho hs (by simp) hrows'
      refine ⟨?_, ?_, ih3, ih4⟩
      · rw [ih1]
        simp only [fullChunks, if_pos hfull]
        simp [List.append_assoc]
      · rw [ih2]
        simp only [fullChunks, if_pos hfull]
    · rw [if_neg hfull]
      have hb' : (st.batch ++ [p]).length < 1000 := by
        simp only [List.length_append, List.length_cons, List.length_nil] at *
        omega
      have hrows' : ∀ x ∈ rest, 15 ≤ x.length := fun x hx => hrows x (by simp [hx])
      obtain ⟨ih1, ih2, ih3, ih4⟩ := ih { st with batch := st.batch ++ [p] }
        ho hs hb' hrows'
      refine ⟨?_, ?_, ih3, ih4⟩
      · rw [ih1]
        simp only [fullChunks, if_neg hfull]
      · rw [ih2]
        simp only [fullChunks, if_neg hfull]

/-- The final flush appends the leftover buffer, when non-empty, as one
more committed batch (under an always-succeeding insert oracle). -/
theorem flushStep_committed (ins wok : Nat → Bool) (st : St)
    (ho : st.outcome = .ok) (hins : ∀ k, ins k = true) :
    (flushStep ins wok st).committed
        = st.committed ++ (if st.batch.isEmpty then [] else [st.batch]) ∧
    (flushStep ins wok st).outcome = .ok := by
  cases hb : st.batch.getLast? with
  | none =>
    have hnil : st.batch = [] := by
      cases hbb : st.batch with
      | nil => rfl
      | cons x xs =>
        rw [hbb] at hb
        simp [List.getLast?_eq_getLast] at hb
    simp [flushStep, ho, hb, hnil]
  | some p =>
    have hne : st.batch.isEmpty = false := by
      cases hbb : st.batch with
      | nil => rw [hbb] at hb; simp at hb
      | cons x xs => simp
    simp [flushStep, ho, hb, hins st.committed.length, hne]

/-- A full run in processing mode starting from an empty buffer commits
exactly the `chunksAll` batching of the mapped entities. -/
theorem run_flush (pf : String → Option Rat) (ins wok : Nat → Bool) (lastID : String)
    (hins : ∀ k, ins k = true)
    (records : List (List String)) (hrows : ∀ r ∈ records, 15 ≤ r.length)
    (st : St) (ho : st.outcome = .ok) (hs : st.start = true) (hb : st.batch = []) :
    (flushStep ins wok (records.foldl (step pf ins wok lastID) st)).committed
        = st.committed ++ chunksAll (records.filterMap (toPlace pf)) ∧
    (flushStep ins wok (records.foldl (step pf ins wok lastID) st)).outcome = .ok := by
  obtain ⟨h1, h2, h3, h4⟩ := foldl_run pf ins wok lastID hins records st ho hs
    (by simp [hb]) hrows
  obtain ⟨f1, f2⟩ := flushStep_committed ins wok _ h3 hins
  rw [h1, h2, hb] at f1
  refine ⟨?_, f2⟩
  rw [f1]
  unfold chunksAll
  simp [List.append_assoc]

/-- Once the loop has left the `ok` state (error return or panic), further
records leave the state untouched. -/
theorem foldl_frozen (pf : String → Option Rat) (ins wok : Nat → Bool) (lastID : String) :
    ∀ (records : List (List String)) (st : St), st.outcome ≠ .ok →
      records.foldl (step pf ins wok lastID) st = st := by
  intro records
  induction records with
  | nil => intro st _; rfl
  | cons r rest ih =>
    intro st ho
    rw [List.foldl_cons]
    have hstep : step pf ins wok lastID st r = st := by
      simp [step, ho]
    rw [hstep, ih st ho]

/-- The final flush does nothing when the loop ended in an error state. -/
theorem flushStep_frozen (ins wok : Nat → Bool) (st : St) (ho : st.outcome ≠ .ok) :
    flushStep ins wok st = st := by
  simp [flushStep, ho]

/-- A record whose column 0 differs from the resume key is skipped
unchanged while the loop is still looking for the resume point. -/
theorem step_skip (pf : String → Option Rat) (ins wok : Nat → Bool) (lastID : String)
    (st : St) (r : List String) (k0 : String)
    (ho : st.outcome = .ok) (hs : st.start = false)
    (hr : colAt r 0 = some k0) (hne : k0 ≠ lastID) :
    step pf ins wok lastID st r = st := by
  simp [step, ho, hs, hr, hne]

/-- The first record whose column 0 equals the resume key flips the
`startProcessing` flag and is itself suppressed. -/
theorem step_toggle (pf : String → Option Rat) (ins wok : Nat → Bool) (lastID : String)
    (st : St) (r : List String)
    (ho : st.outcome = .ok) (hs : st.start = false)
    (hr : colAt r 0 = some lastID) :
    step pf ins wok lastID st r = { st with start := true } := by
  simp [step, ho, hs, hr]

/-- While every record fails to match the resume key (and has a readable
column 0), the searching loop leaves the state untouched. -/
theorem foldl_nomatch (pf : String → Option Rat) (ins wok : Nat → Bool) (lastID : String) :
    ∀ (records : List (List String)) (st : St),
      st.outcome = .ok → st.start = false →
      (∀ r ∈ records, ∃ k, colAt r 0 = some k ∧ k ≠ lastID) →
      records.foldl (step pf ins wok lastID) st = st := by
  intro records
  induction records with
  | nil => intro st _ _ _; rfl
  | cons r rest ih =>
    intro st ho hs hall
    obtain ⟨k, hk, hkne⟩ := hall r (by simp)
    rw [List.foldl_cons, step_skip pf ins wok lastID st r k ho hs hk hkne]
    exact ih st ho hs (fun x hx => hall x (by simp [hx]))

/-- The records processed according to the specification of the Resume
Filter (spec §4.2): with an empty resume key all records; otherwise
exactly the records strictly after the first record whose column 0 equals
the key (and none, when the key never occurs). -/
def specProcessed (lastKey : String) (records : List (List String)) : List (List String) :=
  if lastKey = "" then records
  else (records.dropWhile (fun r => !(colAt r 0 == some lastKey))).drop 1

/-- The head of a non-empty `dropWhile` result fails the predicate. -/
theorem dropWhile_head_false {α : Type} (p : α → Bool) :
    ∀ (l : List α) (m : α) (rest : List α), l.dropWhile p = m :: rest → p m = false := by
  intro l
  induction l with
  | nil => intro m rest h; simp [List.dropWhile] at h
  | cons a t ih =>
    intro m rest h
    by_cases hp : p a
    · rw [List.dropWhile_cons_of_pos hp] at h
      exact ih m rest h
    · rw [List.dropWhile_cons_of_neg hp] at h
      cases h
      simpa using hp

/-- Case analysis of one loop iteration from an `ok` state: panic on an
unreadable column 0, resume-flag toggle, silent skip, full-batch insert
(success or failure), or plain batch append. -/
theorem step_shape (pf : String → Option Rat) (ins wok : Nat → Bool) (lastID : String)
    (st : St) (r : List String) (ho : st.outcome = .ok) :
    step pf ins wok lastID st r = { st with outcome := .indexPanic } ∨
    step pf ins wok lastID st r = { st with start := true } ∨
    step pf ins wok lastID st r = st ∨
    (∃ p, toPlace pf r = some p ∧ ins st.committed.length = true ∧
      step pf ins wok lastID st r =
        { st with batch := [],
                  committed := st.committed ++ [st.batch ++ [p]],
                  persisted := (updateLastProcessedPlaceID wok st.committed.length
                    p.placeId st.persisted st.warnings).1,
                  warnings := (updateLastProcessedPlaceID wok st.committed.length
                    p.placeId st.persisted st.warnings).2 }) ∨
    (ins st.committed.length = false ∧
      step pf ins wok lastID st r = { st with outcome := .insertError }) ∨
    (∃ p, toPlace pf r = some p ∧
      step pf ins wok lastID st r = { st with batch := st.batch ++ [p] }) := by
  cases hc0 : colAt r 0 with
  | none =>
    left
    simp [step, ho, hc0]
  | some k0 =>
    by_cases hs : st.start = true
    · cases htp : toPlace pf r with
      | none =>
        left
        simp [step, ho, hs, hc0, htp]
      | some p =>
        by_cases hfull : 1000 ≤ (st.batch ++ [p]).length
        · have hfull2 : 999 ≤ st.batch.length := by
            simp only [List.length_append, List.length_cons, List.length_nil] at hfull
            omega
          by_cases hins : ins st.committed.length = true
          · right; right; right; left
            exact ⟨p, rfl, hins, by simp [step, ho, hs, hc0, htp, hfull2, hins]⟩
          · right; right; right; right; left
            refine ⟨by simpa using hins, ?_⟩
            simp [step, ho, hs, hc0, htp, hfull2, hins]
        · have hfull2 : ¬ 999 ≤ st.batch.length := by
            simp only [List.length_append, List.length_cons, List.length_nil] at hfull
            omega
          right; right; right; right; right
          exact ⟨p, rfl, by simp [step, ho, hs, hc0, htp, hfull2]⟩
    · have hs' : st.start = false := by simpa using hs
      by_cases hk : k0 = lastID
      · right; left
        rw [hk] at hc0
        exact step_toggle pf ins wok lastID st r ho hs' hc0
      · right; right; left
        exact step_skip pf ins wok lastID st r k0 ho hs' hc0 hk

/-- Checkpoint invariant (with reliable checkpoint writes): the persisted
checkpoint equals the key of the last entity of the last successfully
committed batch, or the startup value when nothing has been committed;
all committed batches had successful inserts; and an `insertError` outcome
means exactly the insert after the committed ones failed. -/
def cpInv (ins : Nat → Bool) (cp0 : String) (st : St) : Prop :=
  st.persisted = ((st.committed.getLast?.bind List.getLast?).map Place.placeId).getD cp0 ∧
  (∀ k, k < st.committed.length → ins k = true) ∧
  (st.outcome = .insertError → ins st.committed.length = false)

/-- One loop iteration preserves the checkpoint invariant. -/
theorem cpInv_step (pf : String → Option Rat) (ins wok : Nat → Bool) (lastID cp0 : String)
    (st : St) (r : List String) (hw : ∀ k, wok k = true)
    (h : cpInv ins cp0 st) : cpInv ins cp0 (step pf ins wok lastID st r) := by
  obtain ⟨h1, h2, h3⟩ := h
  by_cases ho : st.outcome = .ok
  · rcases step_shape pf ins wok lastID st r ho with
      hsh | hsh | hsh | ⟨p, hp, hins, hsh⟩ | ⟨hins, hsh⟩ | ⟨p, hp, hsh⟩
    · rw [hsh]
      exact ⟨h1, h2, fun hc => by simp at hc⟩
    · rw [hsh]
      exact ⟨h1, h2, fun hc => by simp [ho] at hc⟩
    · rw [hsh]
      exact ⟨h1, h2, h3⟩
    · rw [hsh]
      refine ⟨?_, ?_, fun hc => by simp [ho] at hc⟩
      · show (updateLastProcessedPlaceID wok st.committed.length
            p.placeId st.persisted st.warnings).1 = _
        simp only [updateLastProcessedPlaceID, hw st.committed.length, if_true]
        simp [List.getLast?_concat]
      · intro k hk
        simp only [List.length_append, List.length_cons, List.length_nil] at hk
        rcases Nat.lt_succ_iff_lt_or_eq.mp hk with hlt | heq
        · exact h2 k hlt
        · rw [heq]; exact hins
    · rw [hsh]
      exact ⟨h1, h2, fun _ => by simpa using hins⟩
    · rw [hsh]
      exact ⟨h1, h2, fun hc => by simp [ho] at hc⟩
  · have hid : step pf ins wok lastID st r = st := by simp [step, ho]
    rw [hid]
    exact ⟨h1, h2, h3⟩

/-- The whole read loop preserves the checkpoint invariant. -/
theorem cpInv_foldl (pf : String → Option Rat) (ins wok : Nat → Bool) (lastID cp0 : String)
    (hw : ∀ k, wok k = true) :
    ∀ (records : List (List String)) (st : St), cpInv ins cp0 st →
      cpInv ins cp0 (records.foldl (step pf ins wok lastID) st) := by
  intro records
  induction records with
  | nil => intro st h; exact h
  | cons r rest ih =>
    intro st h
    rw [List.foldl_cons]
    exact ih _ (cpInv_step pf ins wok lastID cp0 st r hw h)

/-- The final flush preserves the checkpoint invariant. -/
theorem cpInv_flush (ins wok : Nat → Bool) (cp0 : String) (st : St)
    (hw : ∀ k, wok k = true) (h : cpInv ins cp0 st) :
    cpInv ins cp0 (flushStep ins wok st) := by
  obtain ⟨h1, h2, h3⟩ := h
  by_cases ho : st.outcome = .ok
  · cases hb : st.batch.getLast? with
    | none =>
      have hid : flushStep ins wok st = st := by simp [flushStep, ho, hb]
      rw [hid]; exact ⟨h1, h2, h3⟩
    | some p =>
      by_cases hins : ins st.committed.length = true
      · have hsh : flushStep ins wok st =
            { st with committed := st.committed ++ [st.batch],
                      persisted := (updateLastProcessedPlaceID wok st.committed.length
                        p.placeId st.persisted st.warnings).1,
                      warnings := (updateLastProcessedPlaceID wok st.committed.length
                        p.placeId st.persisted st.warnings).2 } := by
          simp [flushStep, ho, hb, hins]
        rw [hsh]
        refine ⟨?_, ?_, fun hc => by simp [ho] at hc⟩
        · show (updateLastProcessedPlaceID wok st.committed.length
              p.placeId st.persisted st.warnings).1 = _
          simp only [updateLastProcessedPlaceID, hw st.committed.length, if_true]
          simp [List.getLast?_concat, hb]
        · intro k hk
          simp only [List.length_append, List.length_cons, List.length_nil] at hk
          rcases Nat.lt_succ_iff_lt_or_eq.mp hk with hlt | heq
          · exact h2 k hlt
          · rw [heq]; exact hins
      · have hsh : flushStep ins wok st = { st with outcome := .insertError } := by
          simp [flushStep, ho, hb, hins]
        rw [hsh]
        exact ⟨h1, h2, fun _ => by simpa using hins⟩
  · rw [flushStep_frozen ins wok st ho]
    exact ⟨h1, h2, h3⟩

/-- The initial state satisfies the checkpoint invariant. -/
theorem cpInv_init (ins : Nat → Bool) (cp0 : String) : cpInv ins cp0 (initSt cp0) := by
  refine ⟨by simp [initSt], ?_, ?_⟩
  · intro k hk
    simp [initSt] at hk
  · intro hc
    simp [initSt] at hc

/-- Control congruence: the checkpoint-write oracle influences neither the
resume flag, the batch buffer, the committed batches, nor the outcome of
one loop iteration (it only affects the persisted value and warnings). -/
theorem step_wok_cong (pf : String → Option Rat) (ins wok wok' : Nat → Bool)
    (lastID : String) (r : List String) (st st' : St)
    (h1 : st.start = st'.start) (h2 : st.batch = st'.batch)
    (h3 : st.committed = st'.committed) (h4 : st.outcome = st'.outcome) :
    (step pf ins wok lastID st r).start = (step pf ins wok' lastID st' r).start ∧
    (step pf ins wok lastID st r).batch = (step pf ins wok' lastID st' r).batch ∧
    (step pf ins wok lastID st r).committed = (step pf ins wok' lastID st' r).committed ∧
    (step pf ins wok lastID st r).outcome = (step pf ins wok' lastID st' r).outcome := by
  obtain ⟨s, b, c, per, w, o⟩ := st
  obtain ⟨s', b', c', per', w', o'⟩ := st'
  simp only at h1 h2 h3 h4
  subst h1; subst h2; subst h3; subst h4
  by_cases ho : o = Outcome.ok
  · subst ho
    cases hc0 : colAt r 0 with
    | none => simp [step, hc0]
    | some k0 =>
      cases htp : toPlace pf r <;>
        simp only [step, hc0, htp, updateLastProcessedPlaceID] <;>
        split_ifs <;> simp_all
  · simp [step, ho]

/-- Control congruence of the whole read loop in the checkpoint-write
oracle. -/
theorem foldl_wok_cong (pf : String → Option Rat) (ins wok wok' : Nat → Bool)
    (lastID : String) :
    ∀ (records : List (List String)) (st st' : St),
      st.start = st'.start → st.batch = st'.batch →
      st.committed = st'.committed → st.outcome = st'.outcome →
      (records.foldl (step pf ins wok lastID) st).start
        = (records.foldl (step pf ins wok' lastID) st').start ∧
      (records.foldl (step pf ins wok lastID) st).batch
        = (records.foldl (step pf ins wok' lastID) st').batch ∧
      (records.foldl (step pf ins wok lastID) st).committed
        = (records.foldl (step pf ins wok' lastID) st').committed ∧
      (records.foldl (step pf ins wok lastID) st).outcome
        = (records.foldl (step pf ins wok' lastID) st').outcome := by
  intro records
  induction records with
  | nil => intro st st' h1 h2 h3 h4; exact ⟨h1, h2, h3, h4⟩
  | cons r rest ih =>
    intro st st' h1 h2 h3 h4
    obtain ⟨g1, g2, g3, g4⟩ := step_wok_cong pf ins wok wok' lastID r st st' h1 h2 h3 h4
    exact ih _ _ g1 g2 g3 g4

/-- Control congruence of the final flush in the checkpoint-write
oracle. -/
theorem flushStep_wok_cong (ins wok wok' : Nat → Bool) (st st' : St)
    (h2 : st.batch = st'.batch) (h3 : st.committed = st'.committed)
    (h4 : st.outcome = st'.outcome) :
    (flushStep ins wok st).committed = (flushStep ins wok' st').committed ∧
    (flushStep ins wok st).outcome = (flushStep ins wok' st').outcome := by
  obtain ⟨s, b, c, per, w, o⟩ := st
  obtain ⟨s', b', c', per', w', o'⟩ := st'
  simp only at h2 h3 h4
  subst h2; subst h3; subst h4
  by_cases ho : o = Outcome.ok
  · subst ho
    cases hb : b.getLast? <;>
      simp only [flushStep, hb, updateLastProcessedPlaceID] <;>
      split_ifs <;> simp_all
  · simp [flushStep, ho]

/-- Number of failed checkpoint writes among the first `n` write
attempts. -/
def failCount (wok : Nat → Bool) (n : Nat) : Nat :=
  ((List.range n).filter (fun k => !(wok k))).length

/-- Counting lemma: one more write attempt adds one failure exactly when
that write fails. -/
theorem failCount_succ (wok : Nat → Bool) (n : Nat) :
    failCount wok (n + 1) = failCount wok n + (if wok n then 0 else 1) := by
  unfold failCount
  rw [List.range_succ, List.filter_append]
  by_cases hw : wok n <;> simp [hw]

/-- Warning-count invariant: the warnings logged so far are exactly the
checkpoint-write failures among the writes performed (one write per
committed batch). -/
theorem warn_step (pf : String → Option Rat) (ins wok : Nat → Bool)
    (lastID : String) (st : St) (r : List String)
    (h : st.warnings.length = failCount wok st.committed.length) :
    (step pf ins wok lastID st r).warnings.length
      = failCount wok (step pf ins wok lastID st r).committed.length := by
  by_cases ho : st.outcome = .ok
  · rcases step_shape pf ins wok lastID st r ho with
      hsh | hsh | hsh | ⟨p, hp, hins, hsh⟩ | ⟨hins, hsh⟩ | ⟨p, hp, hsh⟩ <;> rw [hsh]
    · exact h
    · exact h
    · exact h
    · show (updateLastProcessedPlaceID wok st.committed.length
          p.placeId st.persisted st.warnings).2.length
        = failCount wok (st.committed ++ [st.batch ++ [p]]).length
      simp only [List.length_append, List.length_cons, List.length_nil]
      rw [failCount_succ]
      unfold updateLastProcessedPlaceID
      by_cases hw : wok st.committed.length <;> simp [hw, h]
    · exact h
    · exact h
  · have hid : step pf ins wok lastID st r = st := by simp [step, ho]
    rw [hid]
    exact h

/-- The warning-count invariant is preserved by the whole read loop. -/
theorem warn_foldl (pf : String → Option Rat) (ins wok : Nat → Bool) (lastID : String) :
    ∀ (records : List (List String)) (st : St),
      st.warnings.length = failCount wok st.committed.length →
      (records.foldl (step pf ins wok lastID) st).warnings.length
        = failCount wok (records.foldl (step pf ins wok lastID) st).committed.length := by
  intro records
  induction records with
  | nil => intro st h; exact h
  | cons r rest ih =>
    intro st h
    exact ih _ (warn_step pf ins wok lastID st r h)

/-- The warning-count invariant is preserved by the final flush. -/
theorem warn_flush (ins wok : Nat → Bool) (st : St)
    (h : st.warnings.length = failCount wok st.committed.length) :
    (flushStep ins wok st).warnings.length
      = failCount wok (flushStep ins wok st).committed.length := by
  by_cases ho : st.outcome = .ok
  · cases hb : st.batch.getLast? with
    | none =>
      have hid : flushStep ins wok st = st := by simp [flushStep, ho, hb]
      rw [hid]; exact h
    | some p =>
      by_cases hins : ins st.committed.length = true
      · have hsh : flushStep ins wok st =
            { st with committed := st.committed ++ [st.batch],
                      persisted := (updateLastProcessedPlaceID wok st.committed.length
                        p.placeId st.persisted st.warnings).1,
                      warnings := (updateLastProcessedPlaceID wok st.committed.length
                        p.placeId st.persisted st.warnings).2 } := by
          simp [flushStep, ho, hb, hins]
        rw [hsh]
        show (updateLastProcessedPlaceID wok st.committed.length
            p.placeId st.persisted st.warnings).2.length
          = failCount wok (st.committed ++ [st.batch]).length
        simp only [List.length_append, List.length_cons, List.length_nil]
        rw [failCount_succ]
        unfold updateLastProcessedPlaceID
        by_cases hw : wok st.committed.length <;> simp [hw, h]
      · have hsh : flushStep ins wok st = { st with outcome := .insertError } := by
          simp [flushStep, ho, hb, hins]
        rw [hsh]
        exact h
  · rw [flushStep_frozen ins wok st ho]
    exact h

/-- Parse oracle used in concrete examples: every string is treated as
unparsable numeric text (so coordinates coerce to 0). -/
def pf0 : String → Option Rat := fun _ => none

/-- A well-formed 15-column data row with natural key `k`. -/
def sampleRow (k : String) : List String :=
  [k, "[]", "a", "true", "BD", "c", "d", "e", "p", "x", "y", "z", "v", "s", "l"]

/-- C1: for an input of N well-formed data rows, no prior checkpoint and
every bulk insert succeeding, `processCSV` ends normally, commits exactly
N entities in input order across ceil(N/1000) `InsertMany` calls, each
batch of size 1000 except a final undersized batch of size N mod 1000 when
N mod 1000 is non-zero. -/
theorem claim1_full_run_batching (pf : String → Option Rat) (ins wok : Nat → Bool)
    (records : List (List String))
    (hins : ∀ k, ins k = true) (hrows : ∀ r ∈ records, 15 ≤ r.length) :
    (processCSV pf ins wok "" records).outcome = .ok ∧
    (processCSV pf ins wok "" records).committed.flatten = records.filterMap (toPlace pf) ∧
    (records.filterMap (toPlace pf)).length = records.length ∧
    (processCSV pf ins wok "" records).committed.length = (records.length + 999) / 1000 ∧
    ∀ i (h : i < (processCSV pf ins wok "" records).committed.length),
      ((processCSV pf ins wok "" records).committed.get ⟨i, h⟩).length =
        if i + 1 = (processCSV pf ins wok "" records).committed.length
            ∧ records.length % 1000 ≠ 0
        then records.length % 1000 else 1000 := by
  obtain ⟨hc, hok⟩ := run_flush pf ins wok "" hins records hrows (initSt "") rfl rfl rfl
  have hes : (records.filterMap (toPlace pf)).length = records.length :=
    length_filterMap_of_isSome _ records (fun r hr => toPlace_isSome pf r (hrows r hr))
  have hc' : (processCSV pf ins wok "" records).committed
      = chunksAll (records.filterMap (toPlace pf)) := by
    show (flushStep ins wok (records.foldl (step pf ins wok "") (initSt ""))).committed = _
    rw [hc]
    simp [initSt]
  refine ⟨hok, ?_, hes, ?_, ?_⟩
  · rw [hc', chunksAll_flatten]
  · rw [hc', chunksAll_length, hes]
  · intro i h
    have h' : i < (chunksAll (records.filterMap (toPlace pf))).length := hc' ▸ h
    have e1 : (processCSV pf ins wok "" records).committed.get ⟨i, h⟩
        = (chunksAll (records.filterMap (toPlace pf))).get ⟨i, h'⟩ := by
      simp only [List.get_eq_getElem]
      exact List.getElem_of_eq hc' h
    rw [e1, chunksAll_sizes (records.filterMap (toPlace pf)) i h', hc', hes]

/-- Witness for C1 at a concrete one-row input: the hypotheses hold and
the run commits a single batch holding the single mapped entity. -/
theorem claim1_full_run_batching_witness :
    (∀ r ∈ [sampleRow "a"], 15 ≤ r.length) ∧
    (processCSV pf0 (fun _ => true) (fun _ => true) "" [sampleRow "a"]).outcome = .ok ∧
    (processCSV pf0 (fun _ => true) (fun _ => true) "" [sampleRow "a"]).committed.length
      = ([sampleRow "a"].length + 999) / 1000 := by
  have h := claim1_full_run_batching pf0 (fun _ => true) (fun _ => true) [sampleRow "a"]
    (fun _ => rfl) (by decide)
  exact ⟨by decide, h.1, h.2.2.2.1⟩

/-- C2: the resume filter processes exactly the records described by
`specProcessed`: all records when the checkpoint key is empty, and
otherwise only the records strictly after the first record whose column 0
equals the key, suppressing that record and everything before it. -/
theorem claim2_resume_filter (pf : String → Option Rat) (ins wok : Nat → Bool)
    (lastID : String) (records : List (List String))
    (hins : ∀ k, ins k = true) (hrows : ∀ r ∈ records, 15 ≤ r.length) :
    (processCSV pf ins wok lastID records).committed.flatten
      = (specProcessed lastID records).filterMap (toPlace pf) ∧
    (processCSV pf ins wok lastID records).outcome = .ok := by
  by_cases hid : lastID = ""
  · subst hid
    obtain ⟨hc, hok⟩ := run_flush pf ins wok "" hins records hrows (initSt "") rfl rfl rfl
    have hc' : (processCSV pf ins wok "" records).committed
        = chunksAll (records.filterMap (toPlace pf)) := by
      show (flushStep ins wok (records.foldl (step pf ins wok "") (initSt ""))).committed = _
      rw [hc]
      simp [initSt]
    refine ⟨?_, hok⟩
    rw [hc', chunksAll_flatten]
    simp [specProcessed]
  · have hstart : (initSt lastID).start = false := by simp [initSt, hid]
    have htake : ∀ r ∈ records.takeWhile (fun r => !(colAt r 0 == some lastID)),
        ∃ k, colAt r 0 = some k ∧ k ≠ lastID := by
      intro r hr
      have hpr := List.mem_takeWhile_imp hr
      have hrlen : 15 ≤ r.length :=
        hrows r ((List.takeWhile_sublist (fun r => !(colAt r 0 == some lastID))).subset hr)
      obtain ⟨k, hk⟩ := Option.isSome_iff_exists.mp ((colAt_isSome_iff r 0).mpr (by omega))
      refine ⟨k, hk, ?_⟩
      intro hkeq
      rw [hk, hkeq] at hpr
      simp at hpr
    have hsplit := List.takeWhile_append_dropWhile
      (fun r => !(colAt r 0 == some lastID)) records
    cases hdw : records.dropWhile (fun r => !(colAt r 0 == some lastID)) with
    | nil =>
      have hfold : records.foldl (step pf ins wok lastID) (initSt lastID)
          = initSt lastID := by
        have hrec : records = records.takeWhile (fun r => !(colAt r 0 == some lastID)) := by
          rw [hdw, List.append_nil] at hsplit
          exact hsplit.symm
        conv_lhs => rw [hrec]
        exact foldl_nomatch pf ins wok lastID _ (initSt lastID) rfl hstart htake
      have hres : processCSV pf ins wok lastID records = initSt lastID := by
        show flushStep ins wok (records.foldl (step pf ins wok lastID) (initSt lastID)) = _
        rw [hfold]
        simp [flushStep, initSt]
      rw [hres]
      exact ⟨by simp [initSt, specProcessed, hid, hdw], rfl⟩
    | cons m rest =>
      have hpm := dropWhile_head_false (fun r => !(colAt r 0 == some lastID)) records m rest hdw
      have hm0 : colAt m 0 = some lastID := by simpa using hpm
      have hrec : records
          = records.takeWhile (fun r => !(colAt r 0 == some lastID)) ++ m :: rest := by
        rw [hdw] at hsplit
        exact hsplit.symm
      have hrest_rows : ∀ r ∈ rest, 15 ≤ r.length := by
        intro r hr
        apply hrows
        rw [hrec]
        simp [hr]
      have hchain : records.foldl (step pf ins wok lastID) (initSt lastID)
          = rest.foldl (step pf ins wok lastID) { initSt lastID with start := true } := by
        conv_lhs => rw [hrec]
        rw [List.foldl_append,
          foldl_nomatch pf ins wok lastID _ (initSt lastID) rfl hstart htake,
          List.foldl_cons,
          step_toggle pf ins wok lastID (initSt lastID) m rfl hstart hm0]
      obtain ⟨hc, hok⟩ := run_flush pf ins wok lastID hins rest hrest_rows
        { initSt lastID with start := true } rfl rfl rfl
      have hcommitted : (processCSV pf ins wok lastID records).committed
          = chunksAll (rest.filterMap (toPlace pf)) := by
        show (flushStep ins wok
          (records.foldl (step pf ins wok lastID) (initSt lastID))).committed = _
        rw [hchain, hc]
        simp [initSt]
      refine ⟨?_, ?_⟩
      · rw [hcommitted, chunksAll_flatten]
        simp [specProcessed, hid, hdw]
      · show (flushStep ins wok
          (records.foldl (step pf ins wok lastID) (initSt lastID))).outcome = .ok
        rw [hchain]
        exact hok

/-- Witness for C2 at a concrete input: checkpoint equal to row 1's key,
two rows; only row 2 is committed, matching `specProcessed`. -/
theorem claim2_resume_filter_witness :
    (∀ r ∈ [sampleRow "a", sampleRow "b"], 15 ≤ r.length) ∧
    (processCSV pf0 (fun _ => true) (fun _ => true) "a"
        [sampleRow "a", sampleRow "b"]).committed.flatten
      = (specProcessed "a" [sampleRow "a", sampleRow "b"]).filterMap (toPlace pf0) := by
  have h := claim2_resume_filter pf0 (fun _ => true) (fun _ => true) "a"
    [sampleRow "a", sampleRow "b"] (fun _ => rfl) (by decide)
  exact ⟨by decide, h.1⟩

/-- C3: with reliable checkpoint writes, the persisted checkpoint always
equals the key of the last entity of the last successfully committed batch
(or the startup value when no batch was committed); every committed batch
had a successful insert; and when the run ends with an insert error, the
failing insert is exactly the one following the committed batches — so the
checkpoint was never advanced for the failing batch. -/
theorem claim3_checkpoint_on_failure (pf : String → Option Rat) (ins wok : Nat → Bool)
    (cp0 : String) (records : List (List String)) (hw : ∀ k, wok k = true) :
    (processCSV pf ins wok cp0 records).persisted
      = (((processCSV pf ins wok cp0 records).committed.getLast?.bind
          List.getLast?).map Place.placeId).getD cp0 ∧
    (∀ k, k < (processCSV pf ins wok cp0 records).committed.length → ins k = true) ∧
    ((processCSV pf ins wok cp0 records).outcome = .insertError →
      ins (processCSV pf ins wok cp0 records).committed.length = false) := by
  exact cpInv_flush ins wok cp0 _ hw
    (cpInv_foldl pf ins wok cp0 cp0 hw records (initSt cp0) (cpInv_init ins cp0))

/-- Witness for C3 at a concrete input: the very first insert fails, the
run reports the insert error, and the checkpoint still holds its startup
value. -/
theorem claim3_checkpoint_on_failure_witness :
    (∀ k : Nat, (fun _ : Nat => true) k = true) ∧
    (processCSV pf0 (fun _ => false) (fun _ => true) "q" [sampleRow "a"]).persisted
      = (((processCSV pf0 (fun _ => false) (fun _ => true) "q"
          [sampleRow "a"]).committed.getLast?.bind
          List.getLast?).map Place.placeId).getD "q" ∧
    ((processCSV pf0 (fun _ => false) (fun _ => true) "q" [sampleRow "a"]).outcome
        = .insertError →
      (fun _ : Nat => false) (processCSV pf0 (fun _ => false) (fun _ => true) "q"
        [sampleRow "a"]).committed.length = false) := by
  have h := claim3_checkpoint_on_failure pf0 (fun _ => false) (fun _ => true) "q"
    [sampleRow "a"] (fun _ => rfl)
  exact ⟨fun _ => rfl, h.1, h.2.2⟩

/-- C4 (against the claim): with a non-empty checkpoint value matching no
record's column 0, the run commits nothing and exits 0, but it emits NO
warning — the warning list is empty, contradicting the claim that the
operator is warned about the never-matched checkpoint. -/
theorem claim4_stale_checkpoint_silent :
    (processCSV pf0 (fun _ => true) (fun _ => true) "zzz"
        [sampleRow "a", sampleRow "b"]).committed = [] ∧
    (processCSV pf0 (fun _ => true) (fun _ => true) "zzz"
        [sampleRow "a", sampleRow "b"]).warnings = [] ∧
    (processCSV pf0 (fun _ => true) (fun _ => true) "zzz"
        [sampleRow "a", sampleRow "b"]).outcome = .ok ∧
    exitCode (processCSV pf0 (fun _ => true) (fun _ => true) "zzz"
        [sampleRow "a", sampleRow "b"]).outcome = 0 := by
  exact ⟨rfl, rfl, rfl, rfl⟩

/-- C5 (against the claim): two distinct input file names whose portions
before the first dot coincide derive the same checkpoint path — distinct
inputs can share a checkpoint. -/
theorem claim5_counterexample :
    progressPath "a.csv" = progressPath "a.txt" ∧ "a.csv" ≠ "a.txt" := by
  exact ⟨rfl, by decide⟩

/-- C5 (amended): the checkpoint path is a deterministic function of the
input file name, and two input names with distinct prefixes before the
first dot derive distinct checkpoint paths; names sharing that prefix
share one. -/
theorem claim5_progress_path_prefix (f g : String)
    (h : f.data.takeWhile (fun c => c != '.') ≠ g.data.takeWhile (fun c => c != '.')) :
    progressPath f ≠ progressPath g := by
  intro he
  apply h
  have hd : (progressPath f).data = (progressPath g).data := congrArg String.data he
  have e1 : ∀ s : String,
      (progressPath s).data = s.data.takeWhile (fun c => c != '.') ++ progressFile.data := by
    intro s
    rw [progressPath, String.data_append]
  rw [e1 f, e1 g] at hd
  exact List.append_cancel_right hd

/-- Witness for the amended C5: `a.csv` and `b.csv` have distinct prefixes
and get distinct checkpoint paths. -/
theorem claim5_progress_path_prefix_witness :
    ("a.csv".data.takeWhile (fun c => c != '.')
      ≠ "b.csv".data.takeWhile (fun c => c != '.')) ∧
    progressPath "a.csv" ≠ progressPath "b.csv" := by
  exact ⟨by decide, claim5_progress_path_prefix "a.csv" "b.csv" (by decide)⟩

/-- C6 (against the claim): `parseArrayFromColumn` applied to
`['a', 'b', 'c']` yields `["a", "'b", "'c"]` — the single quote survives on
elements preceded by a space, because the source trims quotes before
whitespace — and applied to `[]` it yields the one-element sequence
`[""]`, not an empty sequence, because splitting the empty string on
commas yields one empty piece. -/
theorem claim6_parse_array_eval :
    parseArrayFromColumn "['a', 'b', 'c']" = ["a", "'b", "'c"] ∧
    parseArrayFromColumn "[]" = [""] ∧
    parseArrayFromColumn "['a', 'b', 'c']" ≠ ["a", "b", "c"] ∧
    parseArrayFromColumn "[]" ≠ ([] : List String) := by
  refine ⟨rfl, rfl, by decide, by decide⟩

/-- C7: `parseFloat` returns the parsed value on parsable numeric text and
exactly 0 otherwise, and a well-formed row whose coordinate columns are
unparsable is still mapped and committed — the run ends normally. -/
theorem claim7_parse_float_fallback (pf : String → Option Rat) (ins wok : Nat → Bool)
    (s : String) (v : Rat) (r : List String)
    (hr : 15 ≤ r.length) (hins : ∀ k, ins k = true) :
    (pf s = some v → parseFloat pf s = v) ∧
    (pf s = none → parseFloat pf s = 0) ∧
    ∃ p, toPlace pf r = some p ∧
      (processCSV pf ins wok "" [r]).committed = [[p]] ∧
      (processCSV pf ins wok "" [r]).outcome = .ok := by
  refine ⟨fun h => by simp [parseFloat, h], fun h => by simp [parseFloat, h], ?_⟩
  obtain ⟨p, hp⟩ := Option.isSome_iff_exists.mp (toPlace_isSome pf r hr)
  obtain ⟨hc, hok⟩ := run_flush pf ins wok "" hins [r]
    (by intro x hx; simp at hx; rw [hx]; exact hr) (initSt "") rfl rfl rfl
  refine ⟨p, hp, ?_, hok⟩
  show (flushStep ins wok ([r].foldl (step pf ins wok "") (initSt ""))).committed = _
  rw [hc]
  have hfm : [r].filterMap (toPlace pf) = [p] := by simp [hp]
  rw [hfm]
  simp [initSt]
  rfl

/-- Witness for C7 at a concrete input: the all-unparsable oracle coerces
to 0 and the row is still committed as a single entity. -/
theorem claim7_parse_float_fallback_witness :
    15 ≤ (sampleRow "a").length ∧
    (pf0 "xy" = none → parseFloat pf0 "xy" = 0) ∧
    (∃ p, toPlace pf0 (sampleRow "a") = some p ∧
      (processCSV pf0 (fun _ => true) (fun _ => true) "" [sampleRow "a"]).committed
        = [[p]] ∧
      (processCSV pf0 (fun _ => true) (fun _ => true) "" [sampleRow "a"]).outcome
        = .ok) := by
  have h := claim7_parse_float_fallback pf0 (fun _ => true) (fun _ => true) "xy" 0
    (sampleRow "a") (by decide) (fun _ => rfl)
  exact ⟨by decide, h.2.1, h.2.2⟩

/-- C8: a data record with fewer than 15 columns that reaches the mapper
(no prior checkpoint, all earlier rows well-formed) makes the run end with
the index-out-of-range panic outcome and a non-zero exit code; the record
is not silently skipped, nothing after it is processed, and everything
committed comes from the records before it, in order. -/
theorem claim8_short_record_fatal (pf : String → Option Rat) (ins wok : Nat → Bool)
    (pre post : List (List String)) (r : List String)
    (hins : ∀ k, ins k = true) (hpre : ∀ x ∈ pre, 15 ≤ x.length) (hr : r.length < 15) :
    (processCSV pf ins wok "" (pre ++ r :: post)).outcome = .indexPanic ∧
    exitCode (processCSV pf ins wok "" (pre ++ r :: post)).outcome ≠ 0 ∧
    ∃ rem, (processCSV pf ins wok "" (pre ++ r :: post)).committed.flatten ++ rem
      = pre.filterMap (toPlace pf) := by
  obtain ⟨h1, h2, h3, h4⟩ := foldl_run pf ins wok "" hins pre (initSt "") rfl rfl
    (by simp [initSt]) hpre
  have hpanic :
      (step pf ins wok "" (pre.foldl (step pf ins wok "") (initSt "")) r).outcome
        = .indexPanic ∧
      (step pf ins wok "" (pre.foldl (step pf ins wok "") (initSt "")) r).committed
        = (pre.foldl (step pf ins wok "") (initSt "")).committed := by
    cases hc0 : colAt r 0 with
    | none => constructor <;> simp [step, h3, hc0]
    | some k0 =>
      have htp : toPlace pf r = none := toPlace_none_of_short pf r hr
      constructor <;> simp [step, h3, h4, hc0, htp]
  obtain ⟨hpo, hpc⟩ := hpanic
  have hne : (step pf ins wok "" (pre.foldl (step pf ins wok "") (initSt "")) r).outcome
      ≠ .ok := by
    rw [hpo]
    intro hcon
    cases hcon
  have hstate : (pre ++ r :: post).foldl (step pf ins wok "") (initSt "")
      = step pf ins wok "" (pre.foldl (step pf ins wok "") (initSt "")) r := by
    rw [List.foldl_append, List.foldl_cons]
    exact foldl_frozen pf ins wok "" post _ hne
  have hres : processCSV pf ins wok "" (pre ++ r :: post)
      = step pf ins wok "" (pre.foldl (step pf ins wok "") (initSt "")) r := by
    show flushStep ins wok ((pre ++ r :: post).foldl (step pf ins wok "") (initSt "")) = _
    rw [hstate]
    exact flushStep_frozen ins wok _ hne
  refine ⟨by rw [hres]; exact hpo, ?_, ?_⟩
  · rw [hres, hpo]
    decide
  · refine ⟨(fullChunks [] (pre.filterMap (toPlace pf))).2, ?_⟩
    rw [hres, hpc, h1]
    simp only [initSt, List.nil_append]
    have := fullChunks_join (pre.filterMap (toPlace pf)) []
    simpa using this

/-- Witness for C8 at a concrete input: a lone one-column record panics
the run with nothing committed. -/
theorem claim8_short_record_fatal_witness :
    (["x"] : List String).length < 15 ∧
    (processCSV pf0 (fun _ => true) (fun _ => true) ""
        (([] : List (List String)) ++ ["x"] :: [])).outcome = .indexPanic := by
  have h := claim8_short_record_fatal pf0 (fun _ => true) (fun _ => true) [] [] ["x"]
    (fun _ => rfl) (by simp) (by decide)
  exact ⟨by decide, h.1⟩

/-- C9: the checkpoint-write oracle never changes what is committed or the
run outcome — `updateLastProcessedPlaceID` has no error result and a
failed write only logs — and the warnings logged are exactly the failed
checkpoint writes (one write attempt per committed batch). -/
theorem claim9_checkpoint_write_best_effort (pf : String → Option Rat)
    (ins wok wok' : Nat → Bool) (cp0 : String) (records : List (List String)) :
    (processCSV pf ins wok cp0 records).committed
      = (processCSV pf ins wok' cp0 records).committed ∧
    (processCSV pf ins wok cp0 records).outcome
      = (processCSV pf ins wok' cp0 records).outcome ∧
    (processCSV pf ins wok cp0 records).warnings.length
      = failCount wok (processCSV pf ins wok cp0 records).committed.length := by
  obtain ⟨g1, g2, g3, g4⟩ := foldl_wok_cong pf ins wok wok' cp0 records
    (initSt cp0) (initSt cp0) rfl rfl rfl rfl
  obtain ⟨f1, f2⟩ := flushStep_wok_cong ins wok wok' _ _ g2 g3 g4
  refine ⟨f1, f2, ?_⟩
  exact warn_flush ins wok _
    (warn_foldl pf ins wok cp0 records (initSt cp0) (by simp [initSt, failCount]))

/-- C10: every entity produced by the mapper has location type "Point",
coordinates the pair (parseFloat of column 10, parseFloat of column 9) —
longitude first, latitude second — and its workflow fields at their
defaults: not merged, no merge timestamp, empty suggestions and reviews. -/
theorem claim10_mapper_fixed_fields (pf : String → Option Rat) (r : List String)
    (p : Place) (h : toPlace pf r = some p) :
    p.location.type = "Point" ∧
    p.location.coordinates
      = (parseFloat pf ((colAt r 10).getD ""), parseFloat pf ((colAt r 9).getD "")) ∧
    p.isMerged = false ∧ p.mergedAt = none ∧ p.suggestions = [] ∧ p.reviews = [] := by
  rcases r with _ | ⟨a0, _ | ⟨a1, _ | ⟨a2, _ | ⟨a3, _ | ⟨a4, _ | ⟨a5, _ | ⟨a6,
    _ | ⟨a7, _ | ⟨a8, _ | ⟨a9, _ | ⟨a10, _ | ⟨a11, _ | ⟨a12, _ | ⟨a13,
    _ | ⟨a14, rest⟩⟩⟩⟩⟩⟩⟩⟩⟩⟩⟩⟩⟩⟩⟩
  all_goals first
  | exact Option.noConfusion h
  | (injection h with hh
     subst hh
     exact ⟨rfl, rfl, rfl, rfl, rfl, rfl⟩)

/-- Witness for C10 at a concrete row: the mapped entity has location type
"Point" and default workflow fields. -/
theorem claim10_mapper_fixed_fields_witness :
    toPlace pf0 (sampleRow "a") = some ((toPlace pf0 (sampleRow "a")).getD default) ∧
    ((toPlace pf0 (sampleRow "a")).getD default).location.type = "Point" ∧
    ((toPlace pf0 (sampleRow "a")).getD default).isMerged = false := by
  have he : toPlace pf0 (sampleRow "a")
      = some ((toPlace pf0 (sampleRow "a")).getD default) := rfl
  have h := claim10_mapper_fixed_fields pf0 (sampleRow "a") _ he
  exact ⟨he, h.1, h.2.2.1⟩
